import Mathlib

/-!
# Verification of the ai-law-db text-structuring core

A shallow embedding of the pattern-matching core of the `ai-law-db`
repository (scripts `update_laws.py`, `fix_tax_issue.py`,
`fix_empty_laws.py`, `generate_hanketsu_html.py`) together with proofs
about it.

Strings are modelled as `List Char` (Python `str` is a sequence of
Unicode code points, which is exactly `List Char` in Lean).  The scripts
lean heavily on Python's `re` module, so we first build a small regex
interpreter whose match candidates are produced in exactly the order the
backtracking engine of CPython explores them: alternation prefers the
left branch, greedy repetition prefers the longest repetition count,
lazy repetition the shortest, and a search tries start positions from
the left.  Every repetition operator appearing in the source repeats a
single-character class, so repetitions are modelled by a counted
character-class repeat and the interpreter is structurally recursive.
-/

/-! ## Python regular expressions, restricted to the constructs used by the repository -/

/-- Characters matched by Python's `\s` (and stripped by `str.strip`) that can
occur in the repository's data: ASCII whitespace plus NBSP and the ideographic
space U+3000.  (Python's full `\s` set contains further exotic code points that
never occur in judgment texts; they are omitted.) -/
def pyWsChars : List Char := [' ', '\t', '\n', '\r', '\x0b', '\x0c', ' ', '　']

def isPyWs (c : Char) : Bool := pyWsChars.contains c

/-- Regex abstract syntax.  `repCls neg rs lo hi lz` is `[class]{lo,hi}` (with
`hi = none` meaning unbounded), `lz` selecting the lazy variant; `opt lz r` is
`r?` / `r??`; `bos`/`eos` are `^` and `$` (no MULTILINE). -/
inductive Rgx where
  | eps : Rgx
  | lit : Char → Rgx
  | cls : Bool → List (Char × Char) → Rgx
  | seq : Rgx → Rgx → Rgx
  | alt : Rgx → Rgx → Rgx
  | opt : Bool → Rgx → Rgx
  | repCls : Bool → List (Char × Char) → Nat → Option Nat → Bool → Rgx
  | grp : Nat → Rgx → Rgx
  | bos : Rgx
  | eos : Rgx
deriving Repr, DecidableEq

/-- A matcher state: the remaining input, the absolute position in the searched
string, and the captures recorded so far (most recent first). -/
structure MSt where
  rest : List Char
  pos : Nat
  caps : List (Nat × List Char)
deriving Repr, DecidableEq

def inRanges (c : Char) : List (Char × Char) → Bool
  | [] => false
  | (lo, hi) :: rs => (decide (lo ≤ c) && decide (c ≤ hi)) || inRanges c rs

def matchCls (neg : Bool) (rs : List (Char × Char)) (c : Char) : Bool :=
  if neg then !(inRanges c rs) else inRanges c rs

/-- Length of the maximal prefix consisting of characters satisfying `p`. -/
def countRun (p : Char → Bool) : List Char → Nat
  | [] => 0
  | c :: r => if p c then countRun p r + 1 else 0

/-- The repetition counts tried for `[class]{lo,…}` when up to `upper`
repetitions fit: ascending for a lazy repetition, descending for a greedy
one. -/
def repKs (lo upper : Nat) (lz : Bool) : List Nat :=
  if lz then (List.range (upper + 1 - lo)).map (fun i => lo + i)
  else (List.range (upper + 1 - lo)).map (fun i => upper - i)

/-- Candidate states after consuming between `lo` and `hi` characters of a
class, in the order a backtracking engine tries them. -/
def repStates (p : Char → Bool) (lo : Nat) (hi : Option Nat) (lz : Bool) (st : MSt) :
    List MSt :=
  let run := countRun p st.rest
  let upper := match hi with | none => run | some h => min h run
  if upper < lo then []
  else (repKs lo upper lz).map (fun k => ⟨st.rest.drop k, st.pos + k, st.caps⟩)

/-- All ways to match `re` starting in state `st`, in backtracking preference
order.  The head of the returned list is the match Python's `re` engine
reports. -/
def matchRgx : Rgx → MSt → List MSt
  | .eps, st => [st]
  | .bos, st => if st.pos == 0 then [st] else []
  | .eos, st =>
    match st.rest with
    | [] => [st]
    | ['\n'] => [st]
    | _ => []
  | .lit c, st =>
    match st.rest with
    | [] => []
    | c2 :: r => if c2 == c then [⟨r, st.pos + 1, st.caps⟩] else []
  | .cls neg rs, st =>
    match st.rest with
    | [] => []
    | c2 :: r => if matchCls neg rs c2 then [⟨r, st.pos + 1, st.caps⟩] else []
  | .seq a b, st => (matchRgx a st).flatMap (fun st2 => matchRgx b st2)
  | .alt a b, st => matchRgx a st ++ matchRgx b st
  | .opt lz r, st => if lz then st :: matchRgx r st else matchRgx r st ++ [st]
  | .repCls neg rs lo hi lz, st => repStates (matchCls neg rs) lo hi lz st
  | .grp i r, st =>
    (matchRgx r st).map (fun st2 =>
      ⟨st2.rest, st2.pos, (i, st.rest.take (st2.pos - st.pos)) :: st2.caps⟩)

/-- Source: `re.search` scanning: try each start position from the left; report the
match start and final state of the first position that matches.  `pos` is the
absolute position of the suffix `s` within the searched string. -/
def searchAux (re : Rgx) : Nat → List Char → Option (Nat × MSt)
  | pos, [] =>
    match matchRgx re ⟨[], pos, []⟩ with
    | st :: _ => some (pos, st)
    | [] => none
  | pos, c :: r =>
    match matchRgx re ⟨c :: r, pos, []⟩ with
    | st :: _ => some (pos, st)
    | [] => searchAux re (pos + 1) r

def reSearch (re : Rgx) (s : List Char) : Option (Nat × MSt) :=
  searchAux re 0 s

/-- Source: `re.finditer`: non-overlapping matches from the left; a zero-width match
advances the scan position by one.  `fuel` bounds the number of matches
(`s.length + 1` always suffices). -/
def finditerAux (re : Rgx) : Nat → Nat → List Char → List (Nat × MSt)
  | 0, _, _ => []
  | fuel + 1, pos, s =>
    match searchAux re pos s with
    | none => []
    | some (mpos, st) =>
      if st.pos > mpos then
        (mpos, st) :: finditerAux re fuel st.pos (s.drop (st.pos - pos))
      else
        (mpos, st) :: finditerAux re fuel (st.pos + 1) (s.drop (st.pos - pos + 1))

def reFinditer (re : Rgx) (s : List Char) : List (Nat × MSt) :=
  finditerAux re (s.length + 1) 0 s

/-- Lookup of a capture group in a final state (most recent capture wins). -/
def capGet? (st : MSt) (i : Nat) : Option (List Char) :=
  (st.caps.find? (fun p => p.1 == i)).map (fun p => p.2)

def capGet (st : MSt) (i : Nat) : List Char :=
  (capGet? st i).getD []

/-- Source: `re.findall` for a pattern with one capture group. -/
def reFindallG1 (re : Rgx) (s : List Char) : List (List Char) :=
  (reFinditer re s).map (fun p => capGet p.2 1)

/-- Source: `re.sub(re, repl, s)`: replace every non-overlapping match.  None of the
patterns substituted in the repository can match the empty string, but the
zero-width case is handled the way Python handles it anyway. -/
def subAllAux (re : Rgx) (repl : List Char) : Nat → Nat → List Char → List Char
  | 0, _, s => s
  | fuel + 1, pos, s =>
    match searchAux re pos s with
    | none => s
    | some (mpos, st) =>
      let pre := s.take (mpos - pos)
      let rest := s.drop (st.pos - pos)
      if st.pos > mpos then
        pre ++ repl ++ subAllAux re repl fuel st.pos rest
      else
        match rest with
        | [] => pre ++ repl
        | c :: r => pre ++ repl ++ c :: subAllAux re repl fuel (st.pos + 1) r

def reSubAll (re : Rgx) (repl : List Char) (s : List Char) : List Char :=
  subAllAux re repl (s.length + 1) 0 s

/-- Sequence of literal characters. -/
def rgxStr (s : String) : Rgx :=
  s.data.foldr (fun c acc => .seq (.lit c) acc) .eps

def rgxCat (rs : List Rgx) : Rgx := rs.foldr .seq .eps

/-- Alternation, preferring earlier entries (Python's `|`). -/
def rgxAlts : List Rgx → Rgx
  | [] => .cls false []
  | [r] => r
  | r :: rs => .alt r (rgxAlts rs)

/-- Character class listing individual characters. -/
def clsChars (s : String) : List (Char × Char) := s.data.map (fun c => (c, c))

def wsRanges : List (Char × Char) := pyWsChars.map (fun c => (c, c))

/-- Source: `\s*`, `\s+`, single `\s`. -/
def rgxWsStar : Rgx := .repCls false wsRanges 0 none false
def rgxWsPlus : Rgx := .repCls false wsRanges 1 none false
def rgxWs : Rgx := .cls false wsRanges

/-- Source: `[^\n]*` (also what `.*` means outside DOTALL mode). -/
def rgxNotNlStar : Rgx := .repCls true [('\n', '\n')] 0 none false

/-- Source: `(.*?)` under DOTALL as an unnamed repetition (group is added separately). -/
def rgxAnyLazyStar : Rgx := .repCls true [] 0 none true

/-- Python substring containment `needle in hay` (for non-empty needles). -/
def isSubstr (needle hay : List Char) : Bool :=
  needle.isPrefixOf hay ||
    match hay with
    | [] => false
    | _ :: t => isSubstr needle t

/-- Source: `re.sub(r'[ 　]+', ' ', text)`: collapse each maximal run of ASCII or
ideographic spaces into a single ASCII space. -/
def normSpaces : List Char → List Char
  | [] => []
  | [c] => if c == ' ' || c == '　' then [' '] else [c]
  | c :: c2 :: r =>
    if c == ' ' || c == '　' then
      if c2 == ' ' || c2 == '　' then normSpaces (c2 :: r)
      else ' ' :: normSpaces (c2 :: r)
    else c :: normSpaces (c2 :: r)

/-- Source: `re.sub(r'\s+', '', text)`: delete every whitespace character. -/
def stripAllWs (s : List Char) : List Char :=
  s.filter (fun c => !isPyWs c)

/-- Source: `str.strip()`. -/
def pyStrip (s : List Char) : List Char :=
  ((s.dropWhile isPyWs).reverse.dropWhile isPyWs).reverse

/-! ## `scripts/update_laws.py` -/

/-- Source: `ZENKAKU_MAP`: translate full-width digits `０`-`９` to ASCII digits
(`str.translate` applied character-wise). -/
def zenkakuChar (c : Char) : Char :=
  if '０' ≤ c ∧ c ≤ '９' then Char.ofNat (c.toNat - 0xFF10 + 0x30) else c

/-- Python `str.isdigit()` restricted to the character repertoire reachable
here (ASCII and full-width decimal digits). -/
def pyIsDigitChar (c : Char) : Bool :=
  (decide ('0' ≤ c) && decide (c ≤ '9')) || (decide ('０' ≤ c) && decide (c ≤ '９'))

def pyIsDigit (s : List Char) : Bool :=
  !s.isEmpty && s.all pyIsDigitChar

/-- Source: `KANJI_MAP` digit values for `一`-`九` (`KANJI_MAP.get(char, '0')` on the
digit branch). -/
def kanjiDigitVal (c : Char) : Nat :=
  if c = '一' then 1 else if c = '二' then 2 else if c = '三' then 3
  else if c = '四' then 4 else if c = '五' then 5 else if c = '六' then 6
  else if c = '七' then 7 else if c = '八' then 8 else if c = '九' then 9
  else 0

def kanjiDigits : List Char := ['一', '二', '三', '四', '五', '六', '七', '八', '九']

/-- The character loop of `kanji_to_number`, carrying `result` and `current`.
Characters handled by no branch (note: `千` has no branch!) are skipped. -/
def kanjiFold : List Char → Nat → Nat → Nat
  | [], result, current => result + current
  | c :: r, result, current =>
    if kanjiDigits.contains c then kanjiFold r result (kanjiDigitVal c)
    else if c = '十' then kanjiFold r (result + (if current = 0 then 1 else current) * 10) 0
    else if c = '百' then kanjiFold r (result + (if current = 0 then 1 else current) * 100) 0
    else if c = '〇' then kanjiFold r result (current * 10)
    else kanjiFold r result current

/-- Source: `kanji_to_number` (update_laws.py lines 20-53). -/
def kanjiToNumberL (s : List Char) : List Char :=
  if s = [] then []
  else
    let s2 := s.map zenkakuChar
    if pyIsDigit s2 then s2
    else
      let v := kanjiFold s2 0 0
      if v > 0 then (Nat.repr v).data else s2

def kanji_to_number (s : String) : String := ⟨kanjiToNumberL s.data⟩

/-- Source: `LAWS` (update_laws.py lines 57-92), in source order. -/
def LAWS : List String :=
  ["所得税法", "法人税法", "消費税法", "相続税法", "贈与税法", "国税通則法",
   "租税特別措置法", "国税徴収法", "行政事件訴訟法", "印紙税法", "地方税法",
   "登録免許税法", "酒税法", "国税犯則取締法", "民法", "会社法", "民事訴訟法",
   "刑法", "憲法", "所得税法施行令", "法人税法施行令", "消費税法施行令",
   "相続税法施行令", "租税特別措置法施行令", "国税通則法施行令",
   "所得税法施行規則", "法人税法施行規則", "消費税法施行規則",
   "相続税法施行規則", "租税特別措置法施行規則", "財産評価基本通達",
   "法人税基本通達", "所得税基本通達", "消費税法基本通達"]

/-- Source: `NUM_PATTERN = r'[０-９0-9一二三四五六七八九十百]+'` as a class. -/
def numRanges : List (Char × Char) :=
  [('０', '９'), ('0', '9')] ++ clsChars "一二三四五六七八九十百"

def rgxNumPlus : Rgx := .repCls false numRanges 1 none false

/-- Source: `rf'{law}第?({NUM_PATTERN})条(?:の({NUM_PATTERN}))?'`. -/
def lawRgx (law : String) : Rgx :=
  rgxCat [rgxStr law, .opt false (.lit '第'), .grp 1 rgxNumPlus, .lit '条',
          .opt false (rgxCat [.lit 'の', .grp 2 rgxNumPlus])]

/-- Source: `infer_main_law_from_title` (update_laws.py lines 99-111). -/
def infer_main_law_from_title (title : List Char) : Option String :=
  if isSubstr "所得税".data title then some "所得税法"
  else if isSubstr "法人税".data title then some "法人税法"
  else if isSubstr "消費税".data title then some "消費税法"
  else if isSubstr "相続税".data title then some "相続税法"
  else if isSubstr "贈与税".data title then some "贈与税法"
  else none

/-- Source: `re.sub(r'（[^）]{0,100}）', '', text_nospace)` pattern. -/
def bracketRgx : Rgx :=
  rgxCat [.lit '（', .repCls true [('）', '）')] 0 (some 100) false, .lit '）']

/-- One full-name match turned into a citation string:
`f'{law}{article}条'` or `f'{law}{article}条の{sub}'`. -/
def lawMatchName (law : String) (st : MSt) : String :=
  let article := kanjiToNumberL (capGet st 1)
  match capGet? st 2 with
  | some sub => ⟨law.data ++ article ++ '条' :: 'の' :: kanjiToNumberL sub⟩
  | none => ⟨law.data ++ article ++ ['条']⟩

/-- Set insertion (`set.add`): membership is the only thing the sort at the
end can observe, so the set is carried as an insertion-ordered
duplicate-free list. -/
def addUnique (acc : List String) (s : String) : List String :=
  if s ∈ acc then acc else acc ++ [s]

def addLawMatches (law : String) (txt : List Char) (acc : List String) : List String :=
  (reFinditer (lawRgx law) txt).foldl (fun a p => addUnique a (lawMatchName law p.2)) acc

/-- The abbreviation table (update_laws.py lines 145-172): each entry is the
pattern together with the canonical law name emitted as
`f'{law_name}{article}条'`. -/
def abbrevRgx (ab : String) : Rgx :=
  rgxCat [rgxStr ab, .opt false (.lit '第'), .grp 1 rgxNumPlus, .lit '条']

/-- Source: `評基通`/`法基通`/`所基通` patterns have no trailing `条`. -/
def tsutatsuRgx (ab : String) : Rgx :=
  rgxCat [rgxStr ab, .grp 1 rgxNumPlus]

/-- Source: `r'日[^\s]{1,10}租税条約第?({num})条'`. -/
def treatyNicheRgx : Rgx :=
  rgxCat [.lit '日', .repCls true wsRanges 1 (some 10) false, rgxStr "租税条約",
          .opt false (.lit '第'), .grp 1 rgxNumPlus, .lit '条']

def abbreviations : List (Rgx × String) :=
  [(abbrevRgx "所法", "所得税法"), (abbrevRgx "法法", "法人税法"),
   (abbrevRgx "消法", "消費税法"), (abbrevRgx "相法", "相続税法"),
   (abbrevRgx "通法", "国税通則法"), (abbrevRgx "通則法", "国税通則法"),
   (abbrevRgx "措法", "租税特別措置法"), (abbrevRgx "措置法", "租税特別措置法"),
   (abbrevRgx "徴法", "国税徴収法"), (abbrevRgx "徴収法", "国税徴収法"),
   (abbrevRgx "行訴法", "行政事件訴訟法"), (abbrevRgx "民訴法", "民事訴訟法"),
   (abbrevRgx "所令", "所得税法施行令"), (abbrevRgx "法令", "法人税法施行令"),
   (abbrevRgx "消令", "消費税法施行令"), (abbrevRgx "相令", "相続税法施行令"),
   (abbrevRgx "措令", "租税特別措置法施行令"),
   (abbrevRgx "措置法施行令", "租税特別措置法施行令"),
   (abbrevRgx "所規", "所得税法施行規則"), (abbrevRgx "法規", "法人税法施行規則"),
   (tsutatsuRgx "評基通", "財産評価基本通達"), (tsutatsuRgx "法基通", "法人税基本通達"),
   (tsutatsuRgx "所基通", "所得税基本通達"),
   (treatyNicheRgx, "租税条約"), (abbrevRgx "租税条約", "租税条約")]

/-- Source: `同法第?({NUM_PATTERN})条(?:の({NUM_PATTERN}))?`. -/
def dohoRgx : Rgx := lawRgx "同法"

/-- Source: `extract_laws_from_text` (update_laws.py lines 114-190).  The Python
`found` set is carried as a duplicate-free list; `sorted(list(found))` is
`List.insertionSort (· ≤ ·)` under the code-point lexicographic order, which
is the order Python compares strings by. -/
def lawsFound (text title : List Char) : List String :=
  let main_law := infer_main_law_from_title title
  let text_nospace := stripAllWs text
  let text_nobracket := reSubAll bracketRgx [] text_nospace
  let found := LAWS.foldl
    (fun acc law => addLawMatches law text_nospace (addLawMatches law text_nobracket acc)) []
  let found := abbreviations.foldl
    (fun acc pr =>
      (reFinditer pr.1 text_nobracket).foldl
        (fun a p => addUnique a ⟨pr.2.data ++ kanjiToNumberL (capGet p.2 1) ++ ['条']⟩) acc)
    found
  let found :=
    match main_law with
    | some ml => if found = [] then
        (reFinditer dohoRgx text_nobracket).foldl
          (fun a p => addUnique a (lawMatchName ml p.2)) found
      else found
    | none => found
  found

def extractLawsL (text title : List Char) : List String :=
  List.insertionSort (· ≤ ·) (lawsFound text title)

def extract_laws_from_text (text title : String) : List String :=
  extractLawsL text.data title.data

/-! ## `scripts/fix_empty_laws.py` -/

/-- Source: `DISMISSAL_PATTERNS` (fix_empty_laws.py lines 18-27).  `.*` outside DOTALL
is `[^\n]*`. -/
def DISMISSAL_PATTERNS : List Rgx :=
  [rgxStr "本件を上告審として受理しない",
   rgxStr "民訴法３１８条１項により受理すべきものとは認められない",
   rgxStr "民訴法318条1項により受理すべきものとは認められない",
   rgxStr "本件上告を棄却する",
   rgxCat [rgxStr "上告受理の申立て", rgxNotNlStar, rgxStr "理由がない"],
   rgxStr "上告を棄却する",
   rgxStr "上告についての上告理由がない",
   rgxStr "上告受理申立ての理由がない"]

/-- Source: `CITATION_PATTERNS` (fix_empty_laws.py lines 30-35). -/
def CITATION_PATTERNS : List Rgx :=
  [rgxCat [rgxStr "原判決", rgxNotNlStar, rgxStr "事実及び理由", rgxNotNlStar,
           rgxStr "記載のとおり", rgxNotNlStar, rgxStr "引用"],
   rgxCat [rgxStr "理由は", rgxNotNlStar, rgxStr "原判決", rgxNotNlStar,
           rgxStr "記載のとおり"],
   rgxCat [rgxStr "原判決", rgxNotNlStar, rgxStr "引用する"],
   rgxCat [rgxStr "当裁判所", rgxNotNlStar, rgxStr "原判決", rgxNotNlStar,
           rgxStr "引用"]]

/-- Source: `is_dismissal` (fix_empty_laws.py lines 51-57). -/
def is_dismissal (text : List Char) : Bool :=
  let ns := stripAllWs text
  DISMISSAL_PATTERNS.any (fun p => (reSearch p ns).isSome)

/-- Source: `is_citation` (fix_empty_laws.py lines 60-66). -/
def is_citation (text : List Char) : Bool :=
  let ns := stripAllWs text
  CITATION_PATTERNS.any (fun p => (reSearch p ns).isSome)

/-- Source: `COURT_HIERARCHY` (fix_empty_laws.py lines 38-48), in source order. -/
def COURT_HIERARCHY : List (String × Nat) :=
  [("最高裁判所", 3), ("東京高等裁判所", 2), ("大阪高等裁判所", 2),
   ("名古屋高等裁判所", 2), ("福岡高等裁判所", 2), ("仙台高等裁判所", 2),
   ("札幌高等裁判所", 2), ("広島高等裁判所", 2), ("高松高等裁判所", 2)]

/-- Source: `get_court_level` (fix_empty_laws.py lines 69-77). -/
def get_court_level (court : List Char) : Nat :=
  match COURT_HIERARCHY.find? (fun p => isSubstr p.1.data court) with
  | some p => p.2
  | none =>
    if isSubstr "地方裁判所".data court || isSubstr "地裁".data court then 1 else 0

/-- Source: `re.sub(r'(控訴|上告受理申立|上告)事件$', '事件', title)` pattern. -/
def appealSuffixRgx : Rgx :=
  rgxCat [rgxAlts [rgxStr "控訴", rgxStr "上告受理申立", rgxStr "上告"],
          rgxStr "事件", .eos]

/-- Source: `re.sub(r'控訴審判決取消等?', '', ...)` pattern. -/
def kosoTorikeshiRgx : Rgx :=
  rgxCat [rgxStr "控訴審判決取消", .opt false (.lit '等')]

/-- The derived base title (fix_empty_laws.py lines 87-89). -/
def baseTitle (title : List Char) : List Char :=
  pyStrip (reSubAll kosoTorikeshiRgx [] (reSubAll appealSuffixRgx "事件".data title))

/-- The slice of a case record touched by the scripts (JSON fields `number`,
`title`, `court`, `laws`, `judgment_type`, `laws_source`, `original_case`).
Missing JSON keys are `none`. -/
structure Case where
  number : String
  title : String
  court : String
  laws : List String
  judgment_type : Option String := none
  laws_source : Option String := none
  original_case : Option String := none
deriving Repr, DecidableEq

/-- Source: `find_original_judgment` (fix_empty_laws.py lines 80-105): the first
corpus case at a strictly lower court level whose title equals the base
title or contains the (non-empty) base title. -/
def find_original_judgment (case : Case) (all_cases : List Case) : Option Case :=
  let base := baseTitle case.title.data
  let lvl := get_court_level case.court.data
  all_cases.find? (fun c =>
    let cl := get_court_level c.court.data
    (decide (cl < lvl) && c.title.data == base) ||
    (decide (cl < lvl) && !base.isEmpty && isSubstr base c.title.data))

/-- The per-case body of `main` in fix_empty_laws.py (lines 135-192), given
the text extracted from the case's HTML file.  A case whose `laws` list is
already non-empty is skipped untouched (lines 140-141). -/
def fixEmptyLawsStep (case : Case) (all_cases : List Case) (text : List Char) : Case :=
  match case.laws with
  | _ :: _ => case
  | [] =>
    if is_dismissal text then
      { case with laws := ["（上告受理申立却下）"], judgment_type := some "dismissal" }
    else if is_citation text then
      match find_original_judgment case all_cases with
      | some original =>
        if original.laws ≠ [] then
          { case with laws := "（原判決引用）" :: original.laws,
                      laws_source := some "inherited",
                      original_case := some original.number }
        else
          { case with laws := ["（原判決引用）"], judgment_type := some "appeal_rejected" }
      | none =>
        { case with laws := ["（原判決引用）"], judgment_type := some "appeal_rejected" }
    else
      let new_laws := extractLawsL text case.title.data
      if new_laws ≠ [] then
        { case with laws := new_laws }
      else if isSubstr "上告受理".data case.title.data &&
              isSubstr "本件を上告審として受理する".data text then
        { case with laws := ["（上告受理決定）"], judgment_type := some "acceptance" }
      else if isSubstr "損害賠償".data case.title.data ||
              isSubstr "国家賠償".data case.title.data then
        { case with laws := ["（損害賠償請求）"] }
      else if isSubstr "国家損害賠償".data case.title.data then
        { case with laws := ["（国家賠償請求）"] }
      else
        { case with laws := ["（条文参照なし）"] }

/-! ## `scripts/fix_tax_issue.py` -/

/-- Source: `LAW_TO_TAX` (fix_tax_issue.py lines 36-55), in source (insertion) order. -/
def LAW_TO_TAX : List (String × String) :=
  [("所得税法", "所得税"), ("法人税法", "法人税"), ("消費税法", "消費税"),
   ("相続税法", "相続税"), ("贈与税法", "贈与税"), ("印紙税法", "印紙税"),
   ("酒税法", "酒税"), ("登録免許税法", "登録免許税"), ("地方税法", "地方税"),
   ("所得税法施行令", "所得税"), ("法人税法施行令", "法人税"),
   ("消費税法施行令", "消費税"), ("相続税法施行令", "相続税"),
   ("租税特別措置法", "租税特別措置法"), ("財産評価基本通達", "相続税"),
   ("所得税基本通達", "所得税"), ("法人税基本通達", "法人税"),
   ("消費税法基本通達", "消費税")]

/-- Source: `infer_tax_from_laws` (fix_tax_issue.py lines 58-68).  The Python `set` is
modelled as an insertion-ordered duplicate-free list (the one claim about the
classifier only ever observes a one-element result, where every iteration
order of the set agrees). -/
def infer_tax_from_laws (laws : List String) : List String :=
  laws.foldl
    (fun acc law =>
      if law.data.head? = some '（' then acc
      else LAW_TO_TAX.foldl
        (fun a p => if isSubstr p.1.data law.data then addUnique a p.2 else a) acc)
    []

/-- The keyword table of `infer_tax_from_title` (fix_tax_issue.py lines 74-85). -/
def taxTitleKeywords : List (String × String) :=
  [("所得税", "所得税"), ("法人税", "法人税"), ("消費税", "消費税"),
   ("相続税", "相続税"), ("贈与税", "贈与税"), ("印紙税", "印紙税"),
   ("酒税", "酒税"), ("登録免許税", "登録免許税"), ("源泉所得税", "所得税"),
   ("源泉徴収", "所得税")]

/-- Source: `infer_tax_from_title` (fix_tax_issue.py lines 71-89). -/
def infer_tax_from_title (title : List Char) : List String :=
  taxTitleKeywords.foldl
    (fun acc p => if isSubstr p.1.data title then addUnique acc p.2 else acc) []

/-- The pattern table of `infer_tax_from_html` (fix_tax_issue.py lines
105-113): `TAX.{0,5}(?:更正|処分|課税)`. -/
def taxHtmlRgx (tax : String) : Rgx :=
  rgxCat [rgxStr tax, .repCls true [('\n', '\n')] 0 (some 5) false,
          rgxAlts [rgxStr "更正", rgxStr "処分", rgxStr "課税"]]

/-- Source: `infer_tax_from_html` on the text extracted from the case's HTML file
(fix_tax_issue.py lines 92-119). -/
def infer_tax_from_html (text : List Char) : List String :=
  (["所得税", "法人税", "消費税", "相続税", "贈与税", "印紙税", "酒税"] :
      List String).foldl
    (fun acc tax => if (reSearch (taxHtmlRgx tax) text).isSome then addUnique acc tax
                    else acc) []

/-- The `tax_type` priority cascade of `main` (fix_tax_issue.py lines
344-384): topics, then laws, then title, then HTML text, then the linked
original case's `tax_type`, then the unknown sentinel.  `htmlText` is the text
of the case's HTML file if that file exists; `origTax` is
`cases_dict[case['original_case']]['tax_type']` when the case carries an
`original_case` link that resolves in the corpus. -/
def computeTaxType (topics laws : List String) (title : List Char)
    (htmlText : Option (List Char)) (origTax : Option (List String)) : List String :=
  if topics ≠ [] then topics
  else
    let t := if laws ≠ [] then infer_tax_from_laws laws else []
    if t ≠ [] then t
    else
      let t := infer_tax_from_title title
      if t ≠ [] then t
      else
        let t := match htmlText with
                 | some h => infer_tax_from_html h
                 | none => []
        if t ≠ [] then t
        else
          let t := match origTax with
                   | some ot => if ot ≠ [] then ot else []
                   | none => []
          if t ≠ [] then t else ["（税目情報なし）"]

/-- Source: `(?:主な)?争点\s*[^\n]*\n(.*?)(?:主な争点に関する当事者|当事者の主張|第[３4４]|[４4]\s)`
(fix_tax_issue.py line 132, searched with DOTALL). -/
def issueSecRgx1 : Rgx :=
  rgxCat [.opt false (rgxStr "主な"), rgxStr "争点", rgxWsStar, rgxNotNlStar,
          .lit '\n', .grp 1 rgxAnyLazyStar,
          rgxAlts [rgxStr "主な争点に関する当事者", rgxStr "当事者の主張",
                   rgxCat [.lit '第', .cls false (clsChars "３4４")],
                   rgxCat [.cls false (clsChars "４4"), rgxWs]]]

/-- Source: `[３3]\s*(?:主な)?争点\s*[^\n]*\n?(.*?)(?:[４4]\s|第[３3])` (line 133). -/
def issueSecRgx2 : Rgx :=
  rgxCat [.cls false (clsChars "３3"), rgxWsStar, .opt false (rgxStr "主な"),
          rgxStr "争点", rgxWsStar, rgxNotNlStar, .opt false (.lit '\n'),
          .grp 1 rgxAnyLazyStar,
          rgxAlts [rgxCat [.cls false (clsChars "４4"), rgxWs],
                   rgxCat [.lit '第', .cls false (clsChars "３3")]]]

/-- Source: `[（\(][０-９0-9一二三四五六七八九十]+[）\)]\s*([^（\(\n]{5,150})` (lines 142-144). -/
def parenItemRgx : Rgx :=
  rgxCat [.cls false (clsChars "（("),
          .repCls false ([('０', '９'), ('0', '9')] ++ clsChars "一二三四五六七八九十") 1 none false,
          .cls false (clsChars "）)"), rgxWsStar,
          .grp 1 (.repCls true (clsChars "（(\n") 5 (some 150) false)]

/-- Source: `争点(?:及び[^\n]*)?(?:主張|の主張)[^\n]*\n(.*?)(?:第[３4４]|当裁判所の判断)` (line 157). -/
def issueNumberedSecRgx : Rgx :=
  rgxCat [rgxStr "争点", .opt false (rgxCat [rgxStr "及び", rgxNotNlStar]),
          rgxAlts [rgxStr "主張", rgxStr "の主張"], rgxNotNlStar, .lit '\n',
          .grp 1 rgxAnyLazyStar,
          rgxAlts [rgxCat [.lit '第', .cls false (clsChars "３4４")],
                   rgxStr "当裁判所の判断"]]

/-- Source: `(?:^|\n)\s*[１２３４５６７８９0-9]+\s+([^\n（]{10,150})` (lines 166-169). -/
def numberedItemRgx : Rgx :=
  rgxCat [.alt .bos (.lit '\n'), rgxWsStar,
          .repCls false (clsChars "１２３４５６７８９" ++ [('0', '9')]) 1 none false,
          rgxWsPlus, .grp 1 (.repCls true (clsChars "\n（") 10 (some 150) false)]

/-- Source: `^[（\(]?[被原]告の主張` (line 173, an anchored `re.match`). -/
def partyArgRgx : Rgx :=
  rgxCat [.opt false (.cls false (clsChars "（(")), .cls false (clsChars "被原"),
          rgxStr "告の主張"]

/-- Source: `争点[１２３４５６７８９0-9][（\(]([^）\)]{10,150})[）\)]` (lines 182-185). -/
def inlineIssueRgx1 : Rgx :=
  rgxCat [rgxStr "争点", .cls false (clsChars "１２３４５６７８９" ++ [('0', '9')]),
          .cls false (clsChars "（("),
          .grp 1 (.repCls true (clsChars "）)") 10 (some 150) false),
          .cls false (clsChars "）)")]

/-- Source: `争点[（\(][０-９0-9一二三四五六七八九]+[）\)][^\n]{0,30}?([^）\)]{10,100})` (lines 193-195). -/
def inlineIssueRgx2 : Rgx :=
  rgxCat [rgxStr "争点", .cls false (clsChars "（("),
          .repCls false ([('０', '９'), ('0', '9')] ++ clsChars "一二三四五六七八九") 1 none false,
          .cls false (clsChars "）)"), .repCls true [('\n', '\n')] 0 (some 30) true,
          .grp 1 (.repCls true (clsChars "）)") 10 (some 100) false)]

/-- Source: `(?:本件の)?(?:主な)?争点は[、,]?\s*([^。]{10,200})(?:である|か否か)` (lines 204-206). -/
def issueIsRgx : Rgx :=
  rgxCat [.opt false (rgxStr "本件の"), .opt false (rgxStr "主な"), rgxStr "争点は",
          .opt false (.cls false (clsChars "、,")), rgxWsStar,
          .grp 1 (.repCls true [('。', '。')] 10 (some 200) false),
          rgxAlts [rgxStr "である", rgxStr "か否か"]]

/-- Source: `争点\s*本件([^（\(。]{10,150})` (lines 215-217). -/
def issueDirectRgx : Rgx :=
  rgxCat [rgxStr "争点", rgxWsStar, rgxStr "本件",
          .grp 1 (.repCls true (clsChars "（(。") 10 (some 150) false)]

/-- Source: `争点\s*本件[^（]*[（\(]具体的には[、,]?\s*([^）\)]{10,200})[）\)]` (lines 226-228). -/
def issueSpecificRgx : Rgx :=
  rgxCat [rgxStr "争点", rgxWsStar, rgxStr "本件",
          .repCls true [('（', '（')] 0 none false, .cls false (clsChars "（("),
          rgxStr "具体的には", .opt false (.cls false (clsChars "、,")), rgxWsStar,
          .grp 1 (.repCls true (clsChars "）)") 10 (some 200) false),
          .cls false (clsChars "）)")]

/-- Source: `本件の?争点は[、,]?\s*([^。]{10,200})(?:である|か否か|とされる)` (lines 237-239). -/
def issueIsRgx2 : Rgx :=
  rgxCat [rgxStr "本件", .opt false (.lit 'の'), rgxStr "争点は",
          .opt false (.cls false (clsChars "、,")), rgxWsStar,
          .grp 1 (.repCls true [('。', '。')] 10 (some 200) false),
          rgxAlts [rgxStr "である", rgxStr "か否か", rgxStr "とされる"]]

/-- Source: `[^。]{lo,hi}` (greedy). -/
def notMaruRep (lo hi : Nat) : Rgx := .repCls true [('。', '。')] lo (some hi) false

def notMaruStar : Rgx := .repCls true [('。', '。')] 0 none false

/-- The three citation patterns of extract_issues pattern 8 (lines 250-254). -/
def issueCitationRgxs : List Rgx :=
  [rgxCat [rgxStr "争点", notMaruRep 0 100, rgxStr "原判決", notMaruRep 0 50, rgxStr "引用"],
   rgxCat [rgxStr "原判決", notMaruRep 0 50, rgxStr "争点", notMaruRep 0 100, rgxStr "引用"],
   rgxCat [rgxStr "争点", notMaruRep 0 50, rgxStr "引用"]]

/-- The dismissal patterns of extract_issues pattern 9 (lines 262-266). -/
def issueDismissalRgxs : List Rgx :=
  [rgxStr "本件を上告審として受理しない",
   rgxStr "民訴法３１８条１項により受理すべきものとは認められない",
   rgxStr "本件上告を棄却する"]

/-- The broader citation patterns of extract_issues pattern 10 (lines 274-279). -/
def broaderCitationRgxs : List Rgx :=
  [rgxCat [rgxStr "当事者の主張は", notMaruStar, rgxStr "原判決", notMaruStar, rgxStr "引用"],
   rgxCat [rgxStr "前提事実", notMaruStar, rgxStr "原判決", notMaruStar, rgxStr "引用"],
   rgxCat [rgxStr "事実及び理由", notMaruStar, rgxStr "原判決", notMaruStar, rgxStr "引用"],
   rgxCat [rgxStr "原判決", notMaruStar, rgxStr "のとおり", notMaruStar, rgxStr "引用"]]

/-- Source: `訴訟要件に関する|訴えの適法性|訴えの利益` (line 287). -/
def proceduralRgx : Rgx :=
  rgxAlts [rgxStr "訴訟要件に関する", rgxStr "訴えの適法性", rgxStr "訴えの利益"]

/-- Source: `本件は[、,]\s*([^。]{20,200}?)(?:として|ものとして|旨)[^。]*?(?:事案|求める)` (lines 292-294). -/
def caseDescRgx : Rgx :=
  rgxCat [rgxStr "本件は", .cls false (clsChars "、,"), rgxWsStar,
          .grp 1 (.repCls true [('。', '。')] 20 (some 200) true),
          rgxAlts [rgxStr "として", rgxStr "ものとして", rgxStr "旨"],
          .repCls true [('。', '。')] 0 none true,
          rgxAlts [rgxStr "事案", rgxStr "求める"]]

/-- The pattern-1 loop of `extract_issues` (fix_tax_issue.py lines 136-152):
for the first section pattern that matches and whose section yields at least
one parenthesized-numeral item of normalized length ≥ 5, return those items. -/
def issuesFromSecPatterns (tn : List Char) : List Rgx → List (List Char)
  | [] => []
  | p :: rest =>
    match reSearch p tn with
    | none => issuesFromSecPatterns tn rest
    | some pr =>
      let found := (reFindallG1 parenItemRgx (capGet pr.2 1)).filterMap (fun m =>
        let it := stripAllWs (pyStrip m)
        if !it.isEmpty && decide (5 ≤ it.length) then some it else none)
      if found ≠ [] then found else issuesFromSecPatterns tn rest

/-- Pattern 2 of `extract_issues` (lines 155-177). -/
def issuesFromNumberedSec (tn : List Char) : List (List Char) :=
  match reSearch issueNumberedSecRgx tn with
  | none => []
  | some pr =>
    (reFindallG1 numberedItemRgx (capGet pr.2 1)).filterMap (fun m =>
      let it := stripAllWs (pyStrip m)
      if !it.isEmpty && decide (10 ≤ it.length) &&
          (matchRgx partyArgRgx ⟨it, 0, []⟩).isEmpty then
        some it
      else none)

/-- Pattern 3 of `extract_issues` (lines 180-200). -/
def issuesInline (ns : List Char) : List (List Char) :=
  let found := (reFindallG1 inlineIssueRgx1 ns).filterMap (fun m =>
    let it := pyStrip m
    if !it.isEmpty && decide (10 ≤ it.length) then some it else none)
  if found ≠ [] then found
  else
    (reFindallG1 inlineIssueRgx2 ns).filterMap (fun m =>
      let it := pyStrip m
      if !it.isEmpty && decide (10 ≤ it.length) then some it else none)

/-- Patterns 4, 6 and 7 of `extract_issues` share this
search-strip-normalize shape. -/
def issueFromSearch (re : Rgx) (tn : List Char) : List (List Char) :=
  match reSearch re tn with
  | none => []
  | some pr =>
    let it := stripAllWs (pyStrip (capGet pr.2 1))
    if !it.isEmpty then [it] else []

/-- Pattern 5 of `extract_issues` (lines 214-222): the matched clause is
re-prefixed with `本件`. -/
def issueDirect (tn : List Char) : List (List Char) :=
  match reSearch issueDirectRgx tn with
  | none => []
  | some pr =>
    let it := "本件".data ++ stripAllWs (pyStrip (capGet pr.2 1))
    if !it.isEmpty then [it] else []

/-- Pattern 12 of `extract_issues` (lines 291-299). -/
def issueCaseDesc (tn : List Char) : List (List Char) :=
  match reSearch caseDescRgx tn with
  | none => []
  | some pr =>
    let it := stripAllWs (pyStrip (capGet pr.2 1))
    if decide (15 ≤ it.length) then [it.take 100] else []

/-- The twelve-pattern cascade of `extract_issues` (fix_tax_issue.py lines
122-299), before deduplication. -/
def rawIssues (text : List Char) : List (List Char) :=
  let tn := normSpaces text
  let ns := stripAllWs text
  let issues := issuesFromSecPatterns tn [issueSecRgx1, issueSecRgx2]
  let issues := if issues = [] then issuesFromNumberedSec tn else issues
  let issues := if issues = [] then issuesInline ns else issues
  let issues := if issues = [] then issueFromSearch issueIsRgx tn else issues
  let issues := if issues = [] then issueDirect tn else issues
  let issues := if issues = [] then issueFromSearch issueSpecificRgx tn else issues
  let issues := if issues = [] then issueFromSearch issueIsRgx2 tn else issues
  let issues := if issues = [] then
      (if isSubstr "原判決".data ns && isSubstr "引用".data ns &&
          issueCitationRgxs.any (fun p => (reSearch p ns).isSome) then
        ["（原判決引用）".data]
      else [])
    else issues
  let issues := if issues = [] then
      (if issueDismissalRgxs.any (fun p => (reSearch p ns).isSome) then
        ["（上告受理申立却下）".data]
      else [])
    else issues
  let issues := if issues = [] then
      (if broaderCitationRgxs.any (fun p => (reSearch p ns).isSome) then
        ["（原判決引用）".data]
      else [])
    else issues
  let issues := if issues = [] then
      (if (reSearch proceduralRgx ns).isSome then ["（訴訟要件）".data] else [])
    else issues
  if issues = [] then issueCaseDesc tn else issues

/-- The final deduplication loop of `extract_issues` (lines 301-309): keep an
issue when its whitespace-normalized form is new and at least 5 characters
long. -/
def dedupIssues : List (List Char) → List (List Char) → List (List Char)
  | [], _ => []
  | i :: rest, seen =>
    let n := stripAllWs i
    if !seen.contains n && decide (5 ≤ n.length) then i :: dedupIssues rest (n :: seen)
    else dedupIssues rest seen

/-- Source: `extract_issues` (fix_tax_issue.py lines 122-311). -/
def extractIssuesL (text : List Char) : List (List Char) :=
  (dedupIssues (rawIssues text) []).take 10

def extract_issues (text : String) : List String :=
  (extractIssuesL text.data).map (fun l => ⟨l⟩)

/-! ## `scripts/generate_hanketsu_html.py`, `parse_sections` -/

/-- A detected section heading: position in the post-anchor text, heading
title, hierarchy level. -/
structure SecPos where
  pos : Nat
  title : List Char
  level : Nat
deriving Repr, DecidableEq

/-- A section as stored by `parse_sections` (`{'title':…, 'level':…,
'content':[…]}`). -/
structure Sec where
  title : List Char
  level : Nat
  content : List (List Char)
deriving Repr, DecidableEq

/-- Source: `主\s*文` (generate_hanketsu_html.py line 229). -/
def mainAnchorRgx : Rgx := rgxCat [.lit '主', rgxWsStar, .lit '文']

/-- Source: `[１２３４５６７８９0-9一二三四五六七八九十]+` of the `第X` heading pattern. -/
def daiNumRanges : List (Char × Char) :=
  clsChars "１２３４５６７８９" ++ [('0', '9')] ++ clsChars "一二三四五六七八九十"

/-- Source: `[ぁ-んァ-ン一-龯々]{1,20}` of the `第X` heading pattern. -/
def cjkTitleRep : Rgx :=
  .repCls false [('ぁ', 'ん'), ('ァ', 'ン'), ('一', '龯'), ('々', '々')] 1 (some 20) false

/-- Source: `第([１２３４５６７８９0-9一二三四五六七八九十]+)\s+([ぁ-んァ-ン一-龯々]{1,20})`
(line 258). -/
def daiHeadingRgx : Rgx :=
  rgxCat [.lit '第', .grp 1 (.repCls false daiNumRanges 1 none false), rgxWsPlus,
          .grp 2 cjkTitleRep]

/-- Heading collection (generate_hanketsu_html.py lines 238-266): the 主文
anchor at position 0, every `事実及び理由` occurrence past position 20, and
every `第X <title>` occurrence past position 10. -/
def collectSectionPositions (mainText : List Char) : List SecPos :=
  [⟨0, "主文".data, 1⟩] ++
  ((reFinditer (rgxStr "事実及び理由") mainText).filterMap (fun p =>
    if p.1 > 20 then some ⟨p.1, "事実及び理由".data, 1⟩ else none)) ++
  ((reFinditer daiHeadingRgx mainText).filterMap (fun p =>
    if p.1 > 10 then
      some ⟨p.1, '第' :: capGet p.2 1 ++ ' ' :: pyStrip (capGet p.2 2), 2⟩
    else none))

def posLe (a b : SecPos) : Prop := a.pos ≤ b.pos

instance : DecidableRel posLe := fun a b => Nat.decLe a.pos b.pos

instance : IsTotal SecPos posLe := ⟨fun a b => Nat.le_total a.pos b.pos⟩

instance : IsTrans SecPos posLe := ⟨fun _ _ _ => Nat.le_trans⟩

/-- One step of the proximity filter (lines 273-284), on the reversed
accumulator (head = most recent kept heading): a `第X` heading within 50
characters of a kept `事実及び理由` replaces it; a heading at distance ≥ 50
is appended; anything else is dropped. -/
def filterStep (acc : List SecPos) (sp : SecPos) : List SecPos :=
  match acc with
  | [] => [sp]
  | last :: rest =>
    let dist := sp.pos - last.pos
    if dist < 50 && last.title == "事実及び理由".data && isSubstr "第".data sp.title then
      sp :: rest
    else if dist ≥ 50 then sp :: last :: rest
    else last :: rest

def filterPositions (l : List SecPos) : List SecPos :=
  (l.foldl filterStep []).reverse

/-- The retained headings, sorted by position and proximity-filtered. -/
def retainedPositions (mainText : List Char) : List SecPos :=
  filterPositions (List.insertionSort posLe (collectSectionPositions mainText))

/-- The construction loop's spans (lines 287-295): each retained heading
spans from its own position to the next retained heading's position, the
last one to the end of the post-anchor text. -/
def buildSpans (len : Nat) : List SecPos → List (SecPos × Nat × Nat)
  | [] => []
  | sp :: rest =>
    (sp, sp.pos, match rest with | [] => len | sp2 :: _ => sp2.pos) ::
      buildSpans len rest

/-- Source: `^主\s*文\s*`, `^事実及び理由\s*`, `^第X <title>\s*` heading strips
(lines 298-304). -/
def stripHeading (title content : List Char) : List Char :=
  if title == "主文".data then
    reSubAll (rgxCat [.bos, .lit '主', rgxWsStar, .lit '文', rgxWsStar]) [] content
  else if title == "事実及び理由".data then
    reSubAll (rgxCat [.bos, rgxStr "事実及び理由", rgxWsStar]) [] content
  else if isSubstr "第".data title then
    reSubAll (rgxCat [.bos, .lit '第', .repCls false daiNumRanges 1 none false,
                      rgxWsPlus, cjkTitleRep, rgxWsStar]) [] content
  else content

/-- One span turned into a stored section, or dropped when its stripped
content is empty (lines 295-313). -/
def secOfSpan (mainText : List Char) (x : SecPos × Nat × Nat) : Option Sec :=
  let content := pyStrip (stripHeading x.1.title ((mainText.drop x.2.1).take (x.2.2 - x.2.1)))
  if content ≠ [] then some ⟨x.1.title, x.1.level, [content]⟩ else none

/-- The post-anchor text `main_text = text[main_match.start():]` (line 235);
the whole text when the anchor is absent. -/
def mainTextAfterAnchor (text : List Char) : List Char :=
  match reSearch mainAnchorRgx text with
  | none => text
  | some p => text.drop p.1

/-- The spans of all retained headings over the post-anchor text. -/
def sectionSpans (text : List Char) : List (SecPos × Nat × Nat) :=
  let m := mainTextAfterAnchor text
  buildSpans m.length (retainedPositions m)

/-- Source: `parse_sections` (generate_hanketsu_html.py lines 220-315). -/
def parse_sections (text : List Char) : List Sec :=
  match reSearch mainAnchorRgx text with
  | none => [⟨"本文".data, 1, [text]⟩]
  | some _ => (sectionSpans text).filterMap (secOfSpan (mainTextAfterAnchor text))

/-! ## The claims -/

/-- The claim's quantifier domain, modelled from the spec wording: the kanji
numeral for `n` written by digit+multiplier composition — unit digits
`一`-`九` combined with the multipliers `十`, `百`, `千`, a multiplier with
unit digit one written without the leading `一` (as in the spec's examples
`二十三`, `百五`). -/
def kanjiDigitChar : Nat → String
  | 1 => "一"
  | 2 => "二"
  | 3 => "三"
  | 4 => "四"
  | 5 => "五"
  | 6 => "六"
  | 7 => "七"
  | 8 => "八"
  | 9 => "九"
  | _ => ""

def kanjiPart (d : Nat) (mult : String) : String :=
  if d = 0 then "" else (if d = 1 then "" else kanjiDigitChar d) ++ mult

def specKanjiNumeral (n : Nat) : String :=
  kanjiPart (n / 1000) "千" ++ kanjiPart (n % 1000 / 100) "百" ++
    kanjiPart (n % 100 / 10) "十" ++ kanjiDigitChar (n % 10)

/-- C1, counterexample: `kanji_to_number` has no branch for the thousands
multiplier `千` (`KANJI_MAP` stops at `百`), so the kanji numeral for 2000 is
converted to `"2"`, not `"2000"`: the `二` sets the current digit to 2, the
`千` is silently skipped, and the trailing current digit 2 becomes the whole
result. -/
theorem kanji_to_number_thousands_cex :
    specKanjiNumeral 2000 = "二千" ∧ kanji_to_number (specKanjiNumeral 2000) = "2" ∧
      kanji_to_number (specKanjiNumeral 2000) ≠ "2000" := by
  decide

set_option maxRecDepth 100000 in
/-- C1, amended: for every kanji numeral from 1 to 999 written in
digit+multiplier composition (unit digits `一`-`九` with the multipliers
`十` and `百`), `kanji_to_number` returns the correct base-10 integer
string. -/
theorem kanji_to_number_correct_below_1000 (n : Nat) (h1 : 0 < n) (h2 : n < 1000) :
    kanji_to_number (specKanjiNumeral n) = Nat.repr n := by
  revert h1
  revert n h2
  decide

/-- C1, witness: the spec's own example `二十三` → `"23"`. -/
theorem kanji_to_number_correct_below_1000_witness :
    kanji_to_number (specKanjiNumeral 23) = Nat.repr 23 :=
  kanji_to_number_correct_below_1000 23 (by decide) (by decide)

/-- C6: on a text whose only article reference is `同法第45条` and whose title
`所得税更正処分取消請求事件` names income tax, the registry search over full
law names and abbreviations finds nothing, the primary law `所得税法` is
inferred from the title, and the `同法` reference resolves to
`所得税法45条`. -/
theorem extract_laws_doho_resolution :
    extract_laws_from_text "同法第45条" "所得税更正処分取消請求事件" = ["所得税法45条"] := by
  decide

/-! ### C8: the citation extractor emits a sorted, duplicate-free list -/

theorem addUnique_nodup (acc : List String) (s : String) (h : acc.Nodup) :
    (addUnique acc s).Nodup := by
  unfold addUnique
  split
  · exact h
  · rename_i hs
    simpa [List.nodup_append] using ⟨h, hs⟩

theorem foldl_preserves_nodup {β : Type} (f : List String → β → List String)
    (hf : ∀ acc b, acc.Nodup → (f acc b).Nodup) :
    ∀ (l : List β) (acc : List String), acc.Nodup → (l.foldl f acc).Nodup := by
  intro l
  induction l with
  | nil => intro acc h; exact h
  | cons b rest ih => intro acc h; exact ih _ (hf _ _ h)

theorem addLawMatches_nodup (law : String) (txt : List Char) (acc : List String)
    (h : acc.Nodup) : (addLawMatches law txt acc).Nodup :=
  foldl_preserves_nodup _ (fun _ _ ha => addUnique_nodup _ _ ha) _ _ h

theorem lawsFound_nodup (text title : List Char) : (lawsFound text title).Nodup := by
  unfold lawsFound
  have h1 : (LAWS.foldl
      (fun acc law => addLawMatches law (stripAllWs text)
        (addLawMatches law (reSubAll bracketRgx [] (stripAllWs text)) acc)) []).Nodup :=
    foldl_preserves_nodup _
      (fun _ _ ha => addLawMatches_nodup _ _ _ (addLawMatches_nodup _ _ _ ha)) _ _
      List.nodup_nil
  have h2 := foldl_preserves_nodup
    (fun acc (pr : Rgx × String) =>
      (reFinditer pr.1 (reSubAll bracketRgx [] (stripAllWs text))).foldl
        (fun a p => addUnique a ⟨pr.2.data ++ kanjiToNumberL (capGet p.2 1) ++ ['条']⟩) acc)
    (fun _ _ ha => foldl_preserves_nodup _ (fun _ _ hb => addUnique_nodup _ _ hb) _ _ ha)
    abbreviations _ h1
  match hml : infer_main_law_from_title title with
  | some ml =>
    simp only [hml]
    split
    · exact foldl_preserves_nodup _ (fun _ _ ha => addUnique_nodup _ _ ha) _ _ h2
    · exact h2
  | none => simpa only [hml] using h2

/-- C8: `extract_laws_from_text` is deterministic (a second run returns the
same value) and always returns a duplicate-free list sorted in ascending
(code-point lexicographic) order. -/
theorem extract_laws_from_text_deterministic_sorted (text title : String) :
    extract_laws_from_text text title = extract_laws_from_text text title ∧
      (extract_laws_from_text text title).Sorted (· ≤ ·) ∧
      (extract_laws_from_text text title).Nodup := by
  refine ⟨rfl, ?_, ?_⟩
  · exact List.sorted_insertionSort _ _
  · exact (List.perm_insertionSort _ _).nodup_iff.mpr (lawsFound_nodup _ _)

/-! ### C10: cases that already carry citations are left untouched -/

/-- C10: a case whose `laws` list is non-empty when the `fix_empty_laws` pass
reaches it is skipped before any dismissal/citation/re-extraction phase, so
its whole record — `laws`, `judgment_type`, `laws_source`, `original_case`
included — keeps its prior value. -/
theorem fixEmptyLawsStep_skips_nonempty (case : Case) (all_cases : List Case)
    (text : List Char) (h : case.laws ≠ []) :
    fixEmptyLawsStep case all_cases text = case := by
  match hc : case.laws with
  | [] => exact absurd hc h
  | a :: t => simp [fixEmptyLawsStep, hc]

/-- C10, witness. -/
theorem fixEmptyLawsStep_skips_nonempty_witness :
    fixEmptyLawsStep ⟨"12345", "所得税更正処分取消請求事件", "東京地方裁判所",
        ["所得税法36条"], none, none, none⟩ [] "本件上告を棄却する".data =
      ⟨"12345", "所得税更正処分取消請求事件", "東京地方裁判所",
        ["所得税法36条"], none, none, none⟩ :=
  fixEmptyLawsStep_skips_nonempty _ _ _ (by decide)

/-! ### C3: dismissal is tested before citation-to-original -/

/-- C3, counterexample: `main` in fix_empty_laws.py runs Phase 2 (dismissal)
before Phase 3 (citation), so a text matching both a citation-to-original
pattern and a dismissal pattern gets the dismissal sentinel, not the
citation/inheritance branch the claim describes. -/
theorem dismissal_tested_first_cex :
    is_citation "原判決を引用する。本件上告を棄却する。".data = true ∧
      is_dismissal "原判決を引用する。本件上告を棄却する。".data = true ∧
      (fixEmptyLawsStep ⟨"1", "", "", [], none, none, none⟩ []
          "原判決を引用する。本件上告を棄却する。".data).laws = ["（上告受理申立却下）"] ∧
      (fixEmptyLawsStep ⟨"1", "", "", [], none, none, none⟩ []
          "原判決を引用する。本件上告を棄却する。".data).laws.head? ≠
        some "（原判決引用）" := by
  decide

/-- C3, amended: the dismissal pattern family is tested first; every case
text matching a dismissal pattern (whether or not it also matches a citation
pattern) gets the dismissal sentinel, and the citation/inheritance branch —
whose result always starts with the inheritance marker — is taken exactly
when the text matches a citation pattern without matching any dismissal
pattern. -/
theorem dismissal_tested_before_citation (case : Case) (all_cases : List Case)
    (text : List Char) (h0 : case.laws = []) :
    (is_dismissal text = true →
      (fixEmptyLawsStep case all_cases text).laws = ["（上告受理申立却下）"]) ∧
    (is_dismissal text = false → is_citation text = true →
      (fixEmptyLawsStep case all_cases text).laws.head? = some "（原判決引用）") := by
  constructor
  · intro hd
    simp [fixEmptyLawsStep, h0, hd]
  · intro hd hc
    simp only [fixEmptyLawsStep, h0, hd, hc]
    cases hfo : find_original_judgment case all_cases with
    | none => simp
    | some original =>
      by_cases ho : original.laws = []
      · simp [ho]
      · simp [ho]

/-- C3, witness for the amended claim, at a text matching both pattern
families. -/
theorem dismissal_tested_before_citation_witness :
    (is_dismissal "原判決を引用する。本件上告を棄却する。".data = true →
      (fixEmptyLawsStep ⟨"2", "", "", [], none, none, none⟩ []
          "原判決を引用する。本件上告を棄却する。".data).laws = ["（上告受理申立却下）"]) ∧
    (is_dismissal "原判決を引用する。本件上告を棄却する。".data = false →
      is_citation "原判決を引用する。本件上告を棄却する。".data = true →
      (fixEmptyLawsStep ⟨"2", "", "", [], none, none, none⟩ []
          "原判決を引用する。本件上告を棄却する。".data).laws.head? =
        some "（原判決引用）") :=
  dismissal_tested_before_citation ⟨"2", "", "", [], none, none, none⟩ [] _ rfl

/-! ### C5: citation inheritance from the matching lower-court case -/

/-- C5: a citation-marked case (citation pattern matches, no dismissal
pattern matches) with empty `laws`, resolved against a corpus holding a
strictly-lower-court case whose title exactly equals the derived base title
and whose citations are `["所得税法36条"]`, receives the inheritance marker
followed by the origin's citations, and its `original_case` link is set to
the origin's identifier. -/
theorem citation_inheritance_resolution (case original : Case) (text : List Char)
    (h0 : case.laws = []) (hd : is_dismissal text = false)
    (hc : is_citation text = true)
    (hlvl : get_court_level original.court.data < get_court_level case.court.data)
    (ht : original.title.data = baseTitle case.title.data)
    (hlaws : original.laws = ["所得税法36条"]) :
    (fixEmptyLawsStep case [original] text).laws = ["（原判決引用）", "所得税法36条"] ∧
      (fixEmptyLawsStep case [original] text).original_case = some original.number ∧
      (fixEmptyLawsStep case [original] text).laws_source = some "inherited" := by
  have hfind : find_original_judgment case [original] = some original := by
    unfold find_original_judgment
    simp only [List.find?]
    have h1 : decide (get_court_level original.court.data <
        get_court_level case.court.data) = true := decide_eq_true hlvl
    have h2 : (original.title.data == baseTitle case.title.data) = true := by
      simpa [beq_iff_eq] using ht
    simp [h1, h2]
  simp [fixEmptyLawsStep, h0, hd, hc, hfind, hlaws]

/-- C5, witness: an income-tax appeal case at the Tokyo High Court whose
facts-and-reasons are incorporated from the original judgment, resolved
against a one-case corpus holding the district-court original. -/
theorem citation_inheritance_resolution_witness :
    (fixEmptyLawsStep
        ⟨"90001", "所得税更正処分取消請求控訴事件", "東京高等裁判所", [], none, none, none⟩
        [⟨"80001", "所得税更正処分取消請求事件", "横浜地方裁判所",
          ["所得税法36条"], none, none, none⟩]
        "当裁判所の認定は原判決の事実及び理由に記載のとおりであるからこれを引用する".data).laws =
      ["（原判決引用）", "所得税法36条"] ∧
    (fixEmptyLawsStep
        ⟨"90001", "所得税更正処分取消請求控訴事件", "東京高等裁判所", [], none, none, none⟩
        [⟨"80001", "所得税更正処分取消請求事件", "横浜地方裁判所",
          ["所得税法36条"], none, none, none⟩]
        "当裁判所の認定は原判決の事実及び理由に記載のとおりであるからこれを引用する".data).original_case =
      some "80001" ∧
    (fixEmptyLawsStep
        ⟨"90001", "所得税更正処分取消請求控訴事件", "東京高等裁判所", [], none, none, none⟩
        [⟨"80001", "所得税更正処分取消請求事件", "横浜地方裁判所",
          ["所得税法36条"], none, none, none⟩]
        "当裁判所の認定は原判決の事実及び理由に記載のとおりであるからこれを引用する".data).laws_source =
      some "inherited" :=
  citation_inheritance_resolution _ _ _ rfl (by decide) (by decide) (by decide)
    (by decide) rfl

/-! ### C9: the tax-category cascade falls through to the title source -/

/-- C9: with no pre-existing category tags and no citations, a case titled
`相続税更正処分取消請求事件` is classified by the title-keyword source as
exactly `["相続税"]`, whatever its HTML text or linked original case would
have contributed further down the cascade. -/
theorem tax_cascade_title_source (htmlText : Option (List Char))
    (origTax : Option (List String)) :
    computeTaxType [] [] "相続税更正処分取消請求事件".data htmlText origTax =
      ["相続税"] := by
  rfl

/-! ### C2: the canonical 主な争点 example -/

/-- C2: on the spec's own example text the section regex
`(?:主な)?争点\s*[^\n]*\n…` lets `\s*` eat the newline after the header and
`[^\n]*` eat the whole first issue line, so the section strategies fail and
the inline fallback `争点（１）…` returns a single mangled clause (the first
issue with a stray `（２` glued on) instead of the two issues the claim
states.  The module's own docstring advertises the
`「主な争点」→「（１）（２）」` format, so this is a defect of the code, not
of the claim. -/
theorem extract_issues_shuna_soten_bug :
    extract_issues "主な争点\n（１）本件譲渡が譲渡所得に該当するか\n（２）必要経費の範囲" =
      ["本件譲渡が譲渡所得に該当するか（２"] ∧
    extract_issues "主な争点\n（１）本件譲渡が譲渡所得に該当するか\n（２）必要経費の範囲" ≠
      ["本件譲渡が譲渡所得に該当するか", "必要経費の範囲"] := by
  decide

/-! ### C4: the issue-list bounds -/

theorem dedupIssues_norm_len (l : List (List Char)) (seen : List (List Char)) :
    ∀ i ∈ dedupIssues l seen, 5 ≤ (stripAllWs i).length := by
  induction l generalizing seen with
  | nil => simp [dedupIssues]
  | cons a rest ih =>
    intro i hi
    unfold dedupIssues at hi
    by_cases hcond :
        (!List.contains seen (stripAllWs a) && decide (5 ≤ (stripAllWs a).length)) = true
    · rw [if_pos hcond] at hi
      rcases List.mem_cons.mp hi with hrfl | h
      · subst hrfl
        exact of_decide_eq_true (Bool.and_elim_right hcond)
      · exact ih _ _ h
    · rw [if_neg hcond] at hi
      exact ih _ _ hi

set_option maxRecDepth 400000 in
/-- C4, counterexample: extraction pattern 4 (`争点は、…である`) captures up
to 200 characters, so an issue whose normalized length is 160 — above the
claimed 150-character cap — is returned. -/
theorem extract_issues_length_cap_cex :
    extract_issues ("本件の争点は、" ++ String.mk (List.replicate 160 'あ') ++ "である。") =
      [String.mk (List.replicate 160 'あ')] ∧
    150 < (stripAllWs (List.replicate 160 'あ')).length := by
  constructor
  · decide
  · decide

/-- C4, amended: for every input text, `extract_issues` returns at most 10
issues and every returned issue has length at least 5 after whitespace
normalization (no 150-character upper bound holds: the extraction patterns
admit clauses of up to 200 characters). -/
theorem extract_issues_bounds (text : String) :
    (extract_issues text).length ≤ 10 ∧
      ∀ i ∈ extract_issues text, 5 ≤ (stripAllWs i.data).length := by
  constructor
  · have h : (extractIssuesL text.data).length ≤ 10 := by
      simp [extractIssuesL]
    simpa [extract_issues] using h
  · intro i hi
    simp only [extract_issues, List.mem_map] at hi
    obtain ⟨l, hl, rfl⟩ := hi
    have hl2 : l ∈ dedupIssues (rawIssues text.data) [] := by
      simpa [extractIssuesL] using List.mem_of_mem_take hl
    exact dedupIssues_norm_len _ _ l hl2

/-! ### C7: the section spans partition the post-anchor text -/

theorem countRun_le_length (p : Char → Bool) : ∀ l : List Char, countRun p l ≤ l.length := by
  intro l
  induction l with
  | nil => simp [countRun]
  | cons c r ih =>
    unfold countRun
    split
    · simpa using ih
    · simp

theorem repKs_le (lo upper : Nat) (lz : Bool) : ∀ k ∈ repKs lo upper lz, k ≤ upper := by
  intro k hk
  unfold repKs at hk
  split at hk
  all_goals {
    simp only [List.mem_map, List.mem_range] at hk
    obtain ⟨i, hi2, rfl⟩ := hk
    omega
  }

theorem repStates_mem (p : Char → Bool) (lo : Nat) (hi : Option Nat) (lz : Bool)
    (st st2 : MSt) (h : st2 ∈ repStates p lo hi lz st) :
    ∃ k, k ≤ st.rest.length ∧ st2 = ⟨st.rest.drop k, st.pos + k, st.caps⟩ := by
  simp only [repStates] at h
  split at h
  · simp at h
  · simp only [List.mem_map] at h
    obtain ⟨k, hk, rfl⟩ := h
    refine ⟨k, ?_, rfl⟩
    have h1 := repKs_le _ _ _ _ hk
    have h2 : countRun p st.rest ≤ st.rest.length := countRun_le_length p st.rest
    cases hi with
    | none => simp at h1; omega
    | some n => simp at h1; omega

/-- Any match candidate only advances the position, never past the end of the
remaining input, and its remaining input is the corresponding suffix. -/
theorem matchRgx_step : ∀ (re : Rgx) (st st2 : MSt), st2 ∈ matchRgx re st →
    st.pos ≤ st2.pos ∧ st2.pos - st.pos ≤ st.rest.length ∧
      st2.rest = st.rest.drop (st2.pos - st.pos) := by
  intro re
  induction re with
  | eps =>
    intro st st2 h
    simp only [matchRgx, List.mem_singleton] at h
    subst h
    simp
  | bos =>
    intro st st2 h
    simp only [matchRgx] at h
    split at h
    · simp only [List.mem_singleton] at h
      subst h
      simp
    · simp at h
  | eos =>
    intro st st2 h
    simp only [matchRgx] at h
    split at h
    · simp only [List.mem_singleton] at h; subst h; simp
    · simp only [List.mem_singleton] at h; subst h; simp
    · simp at h
  | lit c =>
    intro st st2 h
    obtain ⟨rest, pos, caps⟩ := st
    cases rest with
    | nil => simp [matchRgx] at h
    | cons c2 r =>
      simp only [matchRgx] at h
      split at h
      · simp only [List.mem_singleton] at h
        subst h
        refine ⟨?_, ?_, ?_⟩
        · dsimp only
          omega
        · dsimp only [List.length_cons]
          omega
        · dsimp only
          rw [Nat.add_sub_cancel_left]
          rfl
      · simp at h
  | cls neg rs =>
    intro st st2 h
    obtain ⟨rest, pos, caps⟩ := st
    cases rest with
    | nil => simp [matchRgx] at h
    | cons c2 r =>
      simp only [matchRgx] at h
      split at h
      · simp only [List.mem_singleton] at h
        subst h
        refine ⟨?_, ?_, ?_⟩
        · dsimp only
          omega
        · dsimp only [List.length_cons]
          omega
        · dsimp only
          rw [Nat.add_sub_cancel_left]
          rfl
      · simp at h
  | seq a b iha ihb =>
    intro st st2 h
    simp only [matchRgx, List.mem_flatMap] at h
    obtain ⟨st1, h1, h2⟩ := h
    obtain ⟨p1, q1, r1⟩ := iha st st1 h1
    obtain ⟨p2, q2, r2⟩ := ihb st1 st2 h2
    have hlen : st1.rest.length = st.rest.length - (st1.pos - st.pos) := by
      rw [r1]; exact List.length_drop _ _
    refine ⟨by omega, by omega, ?_⟩
    rw [r2, r1, List.drop_drop]
    congr 1
    omega
  | alt a b iha ihb =>
    intro st st2 h
    simp only [matchRgx, List.mem_append] at h
    rcases h with h | h
    · exact iha st st2 h
    · exact ihb st st2 h
  | opt lz r ih =>
    intro st st2 h
    simp only [matchRgx] at h
    split at h
    · rcases List.mem_cons.mp h with hrfl | h2
      · subst hrfl; simp
      · exact ih st st2 h2
    · rcases List.mem_append.mp h with h2 | h2
      · exact ih st st2 h2
      · simp only [List.mem_singleton] at h2; subst h2; simp
  | repCls neg rs lo hi lz =>
    intro st st2 h
    obtain ⟨k, hk, rfl⟩ := repStates_mem _ lo hi lz st st2 h
    refine ⟨?_, ?_, ?_⟩
    · dsimp only
      omega
    · dsimp only
      rw [Nat.add_sub_cancel_left]
      exact hk
    · dsimp only
      rw [Nat.add_sub_cancel_left]
  | grp i r ih =>
    intro st st2 h
    simp only [matchRgx, List.mem_map] at h
    obtain ⟨st1, h1, rfl⟩ := h
    obtain ⟨p1, q1, r1⟩ := ih st st1 h1
    exact ⟨p1, q1, r1⟩

/-- A pattern that starts with a literal consumes at least one character. -/
theorem matchRgx_litSeq_pos (c : Char) (r : Rgx) (st st2 : MSt)
    (h : st2 ∈ matchRgx (.seq (.lit c) r) st) : st.pos < st2.pos := by
  simp only [matchRgx, List.mem_flatMap] at h
  obtain ⟨st1, h1, h2⟩ := h
  have hr := (matchRgx_step r st1 st2 h2).1
  obtain ⟨rest, pos, caps⟩ := st
  cases rest with
  | nil => simp [matchRgx] at h1
  | cons c2 rr =>
    simp only [matchRgx] at h1
    split at h1
    · simp only [List.mem_singleton] at h1
      subst h1
      dsimp only at hr ⊢
      omega
    · simp at h1

/-- A successful search reports a start position between `pos` and the end of
the suffix, and a genuine match candidate at that position. -/
theorem searchAux_spec (re : Rgx) : ∀ (s : List Char) (pos mpos : Nat) (st2 : MSt),
    searchAux re pos s = some (mpos, st2) →
    pos ≤ mpos ∧ mpos - pos ≤ s.length ∧
      st2 ∈ matchRgx re ⟨s.drop (mpos - pos), mpos, []⟩ := by
  intro s
  induction s with
  | nil =>
    intro pos mpos st2 h
    unfold searchAux at h
    split at h
    · rename_i st rest2 hm
      injection h with h2
      injection h2 with h3 h4
      subst h3
      subst h4
      refine ⟨le_refl _, by simp, ?_⟩
      simp only [Nat.sub_self, List.drop_zero]
      rw [hm]
      exact List.mem_cons_self _ _
    · simp at h
  | cons c r ih =>
    intro pos mpos st2 h
    unfold searchAux at h
    split at h
    · rename_i st rest2 hm
      injection h with h2
      injection h2 with h3 h4
      subst h3
      subst h4
      refine ⟨le_refl _, by simp, ?_⟩
      simp only [Nat.sub_self, List.drop_zero]
      rw [hm]
      exact List.mem_cons_self _ _
    · obtain ⟨p1, p2, p3⟩ := ih (pos + 1) mpos st2 h
      refine ⟨by omega, by simp; omega, ?_⟩
      have hd : (c :: r).drop (mpos - pos) = r.drop (mpos - (pos + 1)) := by
        have h1 : mpos - pos = (mpos - (pos + 1)) + 1 := by omega
        rw [h1]
        rfl
      rw [hd]
      exact p3

/-- Every `finditer` hit lies inside the scanned suffix and carries a genuine
match candidate at its start position. -/
theorem finditerAux_spec (re : Rgx) : ∀ (fuel pos : Nat) (s : List Char)
    (mpos : Nat) (st2 : MSt), (mpos, st2) ∈ finditerAux re fuel pos s →
    pos ≤ mpos ∧ st2 ∈ matchRgx re ⟨s.drop (mpos - pos), mpos, []⟩ := by
  intro fuel
  induction fuel with
  | zero =>
    intro pos s mpos st2 h
    simp [finditerAux] at h
  | succ fuel ih =>
    intro pos s mpos st2 h
    unfold finditerAux at h
    split at h
    · simp at h
    · rename_i mp st hs
      obtain ⟨hp1, hp2, hp3⟩ := searchAux_spec re s pos mp st hs
      have hstep := matchRgx_step re _ st hp3
      have hlen : (s.drop (mp - pos)).length = s.length - (mp - pos) :=
        List.length_drop _ _
      have hpos0 : st.pos - mp ≤ (s.drop (mp - pos)).length := hstep.2.1
      have hpos : st.pos - mp ≤ s.length - (mp - pos) := by omega
      have hmp : mp ≤ st.pos := hstep.1
      split at h
      · rcases List.mem_cons.mp h with he | ht
        · injection he with he1 he2
          subst he1
          subst he2
          exact ⟨hp1, hp3⟩
        · obtain ⟨q1, q3⟩ := ih st.pos (s.drop (st.pos - pos)) mpos st2 ht
          refine ⟨by omega, ?_⟩
          rw [List.drop_drop] at q3
          have harith : st.pos - pos + (mpos - st.pos) = mpos - pos := by omega
          rw [harith] at q3
          exact q3
      · rcases List.mem_cons.mp h with he | ht
        · injection he with he1 he2
          subst he1
          subst he2
          exact ⟨hp1, hp3⟩
        · obtain ⟨q1, q3⟩ := ih (st.pos + 1) (s.drop (st.pos - pos + 1)) mpos st2 ht
          refine ⟨by omega, ?_⟩
          rw [List.drop_drop] at q3
          have harith : st.pos - pos + 1 + (mpos - (st.pos + 1)) = mpos - pos := by omega
          rw [harith] at q3
          exact q3

/-- A `finditer` hit of a literal-headed pattern starts strictly inside the
scanned string. -/
theorem reFinditer_litSeq_lt (c : Char) (r : Rgx) (s : List Char) (mpos : Nat)
    (st2 : MSt) (h : (mpos, st2) ∈ reFinditer (.seq (.lit c) r) s) : mpos < s.length := by
  obtain ⟨h1, h3⟩ := finditerAux_spec _ _ _ _ _ _ h
  have h4 := matchRgx_litSeq_pos c r _ _ h3
  have h5 := (matchRgx_step _ _ _ h3).2.1
  have h6 : (s.drop (mpos - 0)).length = s.length - (mpos - 0) := List.length_drop _ _
  dsimp only at h4 h5
  omega

/-- A successful search for a literal-headed pattern starts strictly inside
the searched string. -/
theorem reSearch_litSeq_lt (c : Char) (r : Rgx) (s : List Char) (mpos : Nat)
    (st2 : MSt) (h : reSearch (.seq (.lit c) r) s = some (mpos, st2)) :
    mpos < s.length := by
  obtain ⟨h1, h2, h3⟩ := searchAux_spec _ _ _ _ _ h
  have h4 := matchRgx_litSeq_pos c r _ _ h3
  have h5 := (matchRgx_step _ _ _ h3).2.1
  have h6 : (s.drop (mpos - 0)).length = s.length - (mpos - 0) := List.length_drop _ _
  dsimp only at h4 h5
  omega

/-- Every collected heading is the 主文 anchor entry at position 0 or lies
strictly between position 10 and the end of the post-anchor text. -/
theorem collect_entries (m : List Char) :
    ∀ sp ∈ collectSectionPositions m,
      sp = ⟨0, "主文".data, 1⟩ ∨ (10 < sp.pos ∧ sp.pos < m.length) := by
  intro sp hsp
  simp only [collectSectionPositions, List.mem_append, List.mem_filterMap,
    List.mem_cons, List.not_mem_nil, or_false] at hsp
  rcases hsp with (h | ⟨p, hp, hif⟩) | ⟨p, hp, hif⟩
  · exact Or.inl h
  · right
    split at hif
    · rename_i hgt
      injection hif with h2
      subst h2
      obtain ⟨mp, st⟩ := p
      constructor
      · dsimp only
        omega
      · have hre : rgxStr "事実及び理由" =
            .seq (.lit '事') (rgxStr "実及び理由") := rfl
        rw [hre] at hp
        exact reFinditer_litSeq_lt _ _ _ _ _ hp
    · simp at hif
  · right
    split at hif
    · rename_i hgt
      injection hif with h2
      subst h2
      obtain ⟨mp, st⟩ := p
      constructor
      · dsimp only
        omega
      · have hre : daiHeadingRgx = .seq (.lit '第')
            (rgxCat [.grp 1 (.repCls false daiNumRanges 1 none false), rgxWsPlus,
              .grp 2 cjkTitleRep]) := rfl
        rw [hre] at hp
        exact reFinditer_litSeq_lt _ _ _ _ _ hp
    · simp at hif

/-- The position-sorted heading list starts with the 主文 anchor entry. -/
theorem sorted_head_main (m : List Char) :
    ∃ t, List.insertionSort posLe (collectSectionPositions m) =
      (⟨0, "主文".data, 1⟩ : SecPos) :: t := by
  have hmem : (⟨0, "主文".data, 1⟩ : SecPos) ∈ collectSectionPositions m := by
    simp [collectSectionPositions]
  have hmem2 : (⟨0, "主文".data, 1⟩ : SecPos) ∈
      List.insertionSort posLe (collectSectionPositions m) :=
    (List.mem_insertionSort posLe).mpr hmem
  have hsorted := List.sorted_insertionSort posLe (collectSectionPositions m)
  cases hs : List.insertionSort posLe (collectSectionPositions m) with
  | nil => rw [hs] at hmem2; simp at hmem2
  | cons hd t =>
    refine ⟨t, ?_⟩
    rw [hs] at hmem2 hsorted
    rcases List.mem_cons.mp hmem2 with he | ht
    · rw [← he]
    · have hle : posLe hd ⟨0, "主文".data, 1⟩ :=
        (List.rel_of_sorted_cons hsorted) _ ht
      have hdl : hd ∈ collectSectionPositions m := by
        have hh : hd ∈ List.insertionSort posLe (collectSectionPositions m) := by
          rw [hs]; exact List.mem_cons_self _ _
        exact (List.mem_insertionSort posLe).mp hh
      rcases collect_entries m hd hdl with hmain | hgt
      · rw [hmain]
      · exfalso
        unfold posLe at hle
        dsimp only at hle
        omega

theorem filterStep_mem (acc : List SecPos) (sp : SecPos) :
    ∀ y ∈ filterStep acc sp, y = sp ∨ y ∈ acc := by
  intro y hy
  cases acc with
  | nil =>
    simp only [filterStep, List.mem_singleton] at hy
    exact Or.inl hy
  | cons last racc =>
    simp only [filterStep] at hy
    split at hy
    · rcases List.mem_cons.mp hy with h | h
      · exact Or.inl h
      · exact Or.inr (List.mem_cons_of_mem _ h)
    · split at hy
      · rcases List.mem_cons.mp hy with h | h
        · exact Or.inl h
        · exact Or.inr h
      · exact Or.inr hy

/-- Fold invariant of the proximity filter: over a position-sorted input and
an accumulator whose (reversed) entries are spaced at least 50 apart and lie
at or before every input position, the accumulator stays ≥50-spaced and its
entries come from the accumulator or the input. -/
theorem foldl_filterStep_chain : ∀ (l acc : List SecPos),
    acc.Chain' (fun a b => b.pos + 50 ≤ a.pos) →
    (∀ a ∈ acc, ∀ x ∈ l, a.pos ≤ x.pos) →
    l.Pairwise (fun a b => a.pos ≤ b.pos) →
    (l.foldl filterStep acc).Chain' (fun a b => b.pos + 50 ≤ a.pos) ∧
      (∀ y ∈ l.foldl filterStep acc, y ∈ acc ∨ y ∈ l) := by
  intro l
  induction l with
  | nil =>
    intro acc h1 _ _
    exact ⟨h1, fun y hy => Or.inl hy⟩
  | cons sp rest ih =>
    intro acc h1 h2 h3
    simp only [List.foldl_cons]
    have hchain : (filterStep acc sp).Chain' (fun a b => b.pos + 50 ≤ a.pos) := by
      cases acc with
      | nil => simp [filterStep]
      | cons last racc =>
        have hlast_le : last.pos ≤ sp.pos :=
          h2 last (List.mem_cons_self _ _) sp (List.mem_cons_self _ _)
        simp only [filterStep]
        split
        · cases racc with
          | nil => simp
          | cons r2 rr =>
            rw [List.chain'_cons] at h1 ⊢
            exact ⟨by omega, h1.2⟩
        · split
          · rename_i hge
            rw [List.chain'_cons]
            exact ⟨by omega, h1⟩
          · exact h1
    have hle : ∀ a ∈ filterStep acc sp, ∀ x ∈ rest, a.pos ≤ x.pos := by
      intro a ha x hx
      rcases filterStep_mem acc sp a ha with rfl | hin
      · exact List.rel_of_pairwise_cons h3 hx
      · exact h2 a hin x (List.mem_cons_of_mem _ hx)
    obtain ⟨hc2, hm2⟩ := ih (filterStep acc sp) hchain hle (List.Pairwise.of_cons h3)
    refine ⟨hc2, ?_⟩
    intro y hy
    rcases hm2 y hy with hy2 | hy2
    · rcases filterStep_mem acc sp y hy2 with rfl | hin
      · exact Or.inr (List.mem_cons_self _ _)
      · exact Or.inl hin
    · exact Or.inr (List.mem_cons_of_mem _ hy2)

theorem filterStep_getLast (e : SecPos) (he : (e.title == "事実及び理由".data) = false)
    (acc : List SecPos) (sp : SecPos) (h : acc.getLast? = some e) :
    (filterStep acc sp).getLast? = some e := by
  cases acc with
  | nil => simp at h
  | cons last racc =>
    cases racc with
    | nil =>
      have hle : last = e := by simpa using h
      subst hle
      simp only [filterStep]
      have hcond : (decide (sp.pos - last.pos < 50) && last.title == "事実及び理由".data &&
          isSubstr "第".data sp.title) = false := by
        rw [he]
        simp
      rw [hcond]
      simp only [Bool.false_eq_true, if_false]
      split
      · simp
      · simp
    | cons r2 rr =>
      have h2 : (r2 :: rr).getLast? = some e := by
        rw [← List.getLast?_cons_cons]
        exact h
      simp only [filterStep]
      split
      · rw [List.getLast?_cons_cons]
        exact h2
      · split
        · rw [List.getLast?_cons_cons, List.getLast?_cons_cons]
          exact h2
        · rw [List.getLast?_cons_cons]
          exact h2

theorem foldl_filterStep_getLast (e : SecPos)
    (he : (e.title == "事実及び理由".data) = false) :
    ∀ (l acc : List SecPos), acc.getLast? = some e →
      (l.foldl filterStep acc).getLast? = some e := by
  intro l
  induction l with
  | nil => intro acc h; exact h
  | cons sp rest ih =>
    intro acc h
    simp only [List.foldl_cons]
    exact ih _ (filterStep_getLast e he acc sp h)

theorem buildSpans_head? (len : Nat) (sp : SecPos) (l : List SecPos) :
    (buildSpans len (sp :: l)).head? =
      some (sp, sp.pos, match l with | [] => len | x :: _ => x.pos) := by
  cases l <;> rfl

theorem buildSpans_contig (len : Nat) : ∀ l : List SecPos,
    (buildSpans len l).Chain' (fun a b => a.2.2 = b.2.1) := by
  intro l
  induction l with
  | nil => simp [buildSpans]
  | cons sp rest ih =>
    cases rest with
    | nil => simp [buildSpans]
    | cons sp2 rr =>
      have hstep : buildSpans len (sp :: sp2 :: rr) =
          (sp, sp.pos, sp2.pos) :: buildSpans len (sp2 :: rr) := rfl
      rw [hstep, List.chain'_cons']
      constructor
      · intro b hb
        rw [buildSpans_head?] at hb
        injection hb with hb2
        rw [← hb2]
      · exact ih

theorem buildSpans_starts_chain (len : Nat) : ∀ l : List SecPos,
    l.Chain' (fun a b => a.pos < b.pos) →
    (buildSpans len l).Chain' (fun a b => a.2.1 < b.2.1) := by
  intro l
  induction l with
  | nil => intro _; simp [buildSpans]
  | cons sp rest ih =>
    intro hch
    cases rest with
    | nil => simp [buildSpans]
    | cons sp2 rr =>
      have hstep : buildSpans len (sp :: sp2 :: rr) =
          (sp, sp.pos, sp2.pos) :: buildSpans len (sp2 :: rr) := rfl
      rw [hstep, List.chain'_cons']
      rw [List.chain'_cons] at hch
      constructor
      · intro b hb
        rw [buildSpans_head?] at hb
        injection hb with hb2
        rw [← hb2]
        exact hch.1
      · exact ih hch.2

theorem buildSpans_last (len : Nat) : ∀ l : List SecPos, l ≠ [] →
    ((buildSpans len l).getLast?).map (fun x => x.2.2) = some len := by
  intro l
  induction l with
  | nil => intro h; exact absurd rfl h
  | cons sp rest ih =>
    intro _
    cases rest with
    | nil => rfl
    | cons sp2 rr =>
      have hstep : buildSpans len (sp :: sp2 :: rr) =
          (sp, sp.pos, sp2.pos) :: buildSpans len (sp2 :: rr) := rfl
      rw [hstep]
      obtain ⟨y, ys, hy⟩ : ∃ y ys, buildSpans len (sp2 :: rr) = y :: ys := by
        cases rr <;> exact ⟨_, _, rfl⟩
      rw [hy, List.getLast?_cons_cons, ← hy]
      exact ih (by simp)

theorem buildSpans_pos_lt (len : Nat) : ∀ l : List SecPos,
    l.Chain' (fun a b => a.pos < b.pos) → (∀ x ∈ l, x.pos < len) →
    ∀ x ∈ buildSpans len l, x.2.1 < x.2.2 := by
  intro l
  induction l with
  | nil => intro _ _ x hx; simp [buildSpans] at hx
  | cons sp rest ih =>
    intro hch hlt x hx
    cases rest with
    | nil =>
      simp only [buildSpans, List.mem_singleton] at hx
      subst hx
      exact hlt sp (List.mem_cons_self _ _)
    | cons sp2 rr =>
      have hstep : buildSpans len (sp :: sp2 :: rr) =
          (sp, sp.pos, sp2.pos) :: buildSpans len (sp2 :: rr) := rfl
      rw [hstep] at hx
      rw [List.chain'_cons] at hch
      rcases List.mem_cons.mp hx with hx1 | hx2
      · subst hx1
        exact hch.1
      · exact ih hch.2 (fun z hz => hlt z (List.mem_cons_of_mem _ hz)) x hx2

/-- C7, amended: when the 主文 anchor is found, the spans of the retained
headings — the sections as constructed, before empty-content sections are
dropped — are ordered by position, non-overlapping and contiguous: the first
span starts at position 0 of the post-anchor text, each span ends exactly at
the next retained heading's position, the last span ends at the end of the
post-anchor text, and every span is non-empty, so their union covers the
post-anchor portion exactly once.  The sections `parse_sections` returns are
exactly those spans whose heading-stripped content is non-empty (the claim's
"covers exactly once" fails for the returned sections precisely because
empty-content spans are dropped). -/
theorem parse_sections_spans_partition (text : List Char) (p : Nat × MSt)
    (h : reSearch mainAnchorRgx text = some p) :
    sectionSpans text ≠ [] ∧
      (sectionSpans text).head?.map (fun x => x.2.1) = some 0 ∧
      (sectionSpans text).Chain' (fun a b => a.2.2 = b.2.1) ∧
      ((sectionSpans text).getLast?).map (fun x => x.2.2) =
        some (mainTextAfterAnchor text).length ∧
      (sectionSpans text).Chain' (fun a b => a.2.1 < b.2.1) ∧
      (∀ x ∈ sectionSpans text, x.2.1 < x.2.2) ∧
      parse_sections text =
        (sectionSpans text).filterMap (secOfSpan (mainTextAfterAnchor text)) := by
  obtain ⟨s0, st0⟩ := p
  have hlt : s0 < text.length := reSearch_litSeq_lt '主' _ text s0 st0 h
  have hmm : mainTextAfterAnchor text = text.drop s0 := by
    simp [mainTextAfterAnchor, h]
  have hmlen : 0 < (mainTextAfterAnchor text).length := by
    rw [hmm, List.length_drop]
    omega
  obtain ⟨srest, hsort⟩ := sorted_head_main (mainTextAfterAnchor text)
  have hpairwise : srest.Pairwise (fun a b : SecPos => a.pos ≤ b.pos) := by
    have hs := List.sorted_insertionSort posLe
      (collectSectionPositions (mainTextAfterAnchor text))
    rw [hsort] at hs
    exact (List.pairwise_cons.mp hs).2
  obtain ⟨hchain, hmem⟩ := foldl_filterStep_chain srest [⟨0, "主文".data, 1⟩]
    (by simp)
    (by
      intro a ha x hx
      simp only [List.mem_singleton] at ha
      subst ha
      simp)
    hpairwise
  have hlast : ((srest.foldl filterStep [⟨0, "主文".data, 1⟩]).getLast?) =
      some ⟨0, "主文".data, 1⟩ :=
    foldl_filterStep_getLast _ (by decide) srest _ (by simp)
  have hfps : retainedPositions (mainTextAfterAnchor text) =
      (srest.foldl filterStep [⟨0, "主文".data, 1⟩]).reverse := by
    unfold retainedPositions filterPositions
    rw [hsort]
    rfl
  have hfps_head : (retainedPositions (mainTextAfterAnchor text)).head? =
      some ⟨0, "主文".data, 1⟩ := by
    rw [hfps, List.head?_reverse]
    exact hlast
  have hfps_chain : (retainedPositions (mainTextAfterAnchor text)).Chain'
      (fun a b : SecPos => a.pos < b.pos) := by
    rw [hfps, List.chain'_reverse]
    exact List.Chain'.imp (fun a b hab => show b.pos < a.pos by omega) hchain
  have hfps_lt : ∀ x ∈ retainedPositions (mainTextAfterAnchor text),
      x.pos < (mainTextAfterAnchor text).length := by
    intro x hx
    rw [hfps, List.mem_reverse] at hx
    rcases hmem x hx with hx2 | hx2
    · simp only [List.mem_singleton] at hx2
      subst hx2
      exact hmlen
    · have hx3 : x ∈ List.insertionSort posLe
          (collectSectionPositions (mainTextAfterAnchor text)) := by
        rw [hsort]
        exact List.mem_cons_of_mem _ hx2
      have hxc := (List.mem_insertionSort posLe).mp hx3
      rcases collect_entries _ x hxc with h3 | h3
      · subst h3
        exact hmlen
      · exact h3.2
  obtain ⟨fr, hfr⟩ : ∃ fr, retainedPositions (mainTextAfterAnchor text) =
      (⟨0, "主文".data, 1⟩ : SecPos) :: fr := by
    cases hfp : retainedPositions (mainTextAfterAnchor text) with
    | nil => rw [hfp] at hfps_head; simp at hfps_head
    | cons a b =>
      rw [hfp] at hfps_head
      injection hfps_head with h2
      subst h2
      exact ⟨b, rfl⟩
  have hspans : sectionSpans text =
      buildSpans (mainTextAfterAnchor text).length
        (retainedPositions (mainTextAfterAnchor text)) := rfl
  refine ⟨?_, ?_, ?_, ?_, ?_, ?_, ?_⟩
  · rw [hspans, hfr]
    simp [buildSpans]
  · rw [hspans, hfr, buildSpans_head?]
    rfl
  · rw [hspans]
    exact buildSpans_contig _ _
  · rw [hspans]
    exact buildSpans_last _ _ (by rw [hfr]; simp)
  · rw [hspans]
    exact buildSpans_starts_chain _ _ hfps_chain
  · rw [hspans]
    exact buildSpans_pos_lt _ _ hfps_chain hfps_lt
  · simp [parse_sections, h]

/-- C7, counterexample to the claim as stated: on the text `主文` the single
retained heading's content is the heading itself, which is stripped, so the
section is dropped and `parse_sections` returns no sections at all — their
spans cover none of the (non-empty, length-2) post-主文 portion. -/
theorem parse_sections_cover_cex :
    parse_sections "主文".data = [] ∧
      sectionSpans "主文".data = [(⟨0, "主文".data, 1⟩, 0, 2)] ∧
      (mainTextAfterAnchor "主文".data).length = 2 := by
  decide

/-- C7, witness for the amended claim at the minimal anchored text: its one
retained heading spans the whole post-anchor portion. -/
theorem parse_sections_spans_partition_witness :
    sectionSpans "主文".data ≠ [] ∧
      (sectionSpans "主文".data).head?.map (fun x => x.2.1) = some 0 ∧
      (sectionSpans "主文".data).Chain' (fun a b => a.2.2 = b.2.1) ∧
      ((sectionSpans "主文".data).getLast?).map (fun x => x.2.2) =
        some (mainTextAfterAnchor "主文".data).length ∧
      (sectionSpans "主文".data).Chain' (fun a b => a.2.1 < b.2.1) ∧
      (∀ x ∈ sectionSpans "主文".data, x.2.1 < x.2.2) ∧
      parse_sections "主文".data =
        (sectionSpans "主文".data).filterMap (secOfSpan (mainTextAfterAnchor "主文".data)) :=
  parse_sections_spans_partition "主文".data (0, ⟨[], 2, []⟩) (by decide)
